import Mathlib

/-!
Verification development for the news-trading backtester.

The repository's core (src/backtester.py together with
src/bot_modules/decision_engine.py) is embedded shallowly below.
Machine floats are modelled by exact rationals, pandas DataFrames by
association lists of named columns (or lists of per-day bars), pandas
lookups that may raise KeyError/IndexError by Option-valued lookups, and
Python exceptions that escape a function by Except.  Python's builtin
round (banker's rounding, round half to even) is modelled exactly.
-/

namespace NewsBot

/-- Python exceptions that the backtester's code paths can raise.  The
backtester catches KeyError and IndexError per ticker; ZeroDivisionError
would escape. -/
inductive PyErr
  | KeyError
  | IndexError
  | ZeroDivisionError
deriving DecidableEq, Repr

/-- Python's builtin round on a rational: nearest integer, ties to even. -/
def pyround (x : ℚ) : ℤ :=
  if x - ⌊x⌋ = 1 / 2 then (if Even ⌊x⌋ then ⌊x⌋ else ⌊x⌋ + 1) else round x

/-- The trade direction strings 'BUY' / 'SELL' / 'HOLD' of the source. -/
inductive TradeSignal
  | BUY
  | SELL
  | HOLD
deriving DecidableEq, Repr

/-- FinBERT sentiment labels attached to analysed headlines. -/
inductive Sentiment
  | positive
  | negative
  | neutral
deriving DecidableEq, Repr

/-- One row of the analysed-news table fed to the decision engine:
sentiment label, model confidence, and the ordered ticker tags. -/
structure NewsRow where
  sentiment : Sentiment
  confidence : ℚ
  tickers : List String
deriving DecidableEq, Repr

/-- A news row after find_trade_signals added its 'signal' column. -/
structure SignalRow where
  sentiment : Sentiment
  confidence : ℚ
  tickers : List String
  signal : TradeSignal
deriving DecidableEq, Repr

/-- decision_engine.find_trade_signals: keep rows with non-neutral
sentiment and confidence at or above the threshold, and add a 'signal'
column mapping positive to BUY and anything else (negative) to SELL. -/
def find_trade_signals (rows : List NewsRow) (confidence_threshold : ℚ) :
    List SignalRow :=
  (rows.filter fun r =>
      r.sentiment != Sentiment.neutral &&
        decide (confidence_threshold ≤ r.confidence)).map
    fun r =>
      { sentiment := r.sentiment, confidence := r.confidence,
        tickers := r.tickers,
        signal := if r.sentiment = Sentiment.positive then TradeSignal.BUY
          else TradeSignal.SELL }

/-- Comparison used by the ranking sort: ascending by confidence. -/
def confLE (a b : SignalRow) : Prop := a.confidence ≤ b.confidence

instance : DecidableRel confLE := fun a b =>
  inferInstanceAs (Decidable (a.confidence ≤ b.confidence))

/-- decision_engine.rank_signals:
`signals_df.sort_values(by='confidence', ascending=False)` (default kind,
quicksort).  pandas' nargsort implements the descending sort by first
reversing the values and the index array, running an ascending argsort,
gathering through the reversed index, and finally reversing the
resulting indexer; numpy's quicksort runs a stable insertion sort on
partitions of fewer than 16 elements, so for the small signal tables at
play the whole call is: reverse the rows, stable-sort them ascending by
confidence, reverse the result.  The double reversal makes the
descending sort stable: equal-confidence rows keep their original
order. -/
def rank_signals (rows : List SignalRow) : List SignalRow :=
  (List.insertionSort confLE rows.reverse).reverse

/-- decision_engine.check_ma_crossover_signal's last rolling mean:
`series.rolling(window=w).mean().iloc[-1]`.  The last value is defined
(non-NaN) exactly when the series has at least `w` rows; it is then the
mean of the last `w` entries. -/
def lastRollingMean (xs : List ℚ) (window : ℕ) : Option ℚ :=
  if 0 < window ∧ window ≤ xs.length then
    some ((xs.drop (xs.length - window)).sum / (window : ℚ))
  else none

/-- decision_engine.check_ma_crossover_signal: compare the most recent
fast and slow SMA values; fast > slow gives BUY, fast < slow gives SELL,
anything else (equal values, or a NaN from insufficient history, whose
comparisons are both false) gives HOLD.  On a zero-row series the
`.iloc[-1]` lookup raises IndexError. -/
def check_ma_crossover_signal (closes : List ℚ)
    (fast_window : ℕ := 20) (slow_window : ℕ := 50) :
    Except PyErr TradeSignal :=
  if closes.length = 0 then Except.error PyErr.IndexError
  else
    match lastRollingMean closes fast_window,
        lastRollingMean closes slow_window with
    | some f, some s =>
        if s < f then Except.ok TradeSignal.BUY
        else if f < s then Except.ok TradeSignal.SELL
        else Except.ok TradeSignal.HOLD
    | some _, none => Except.ok TradeSignal.HOLD
    | none, some _ => Except.ok TradeSignal.HOLD
    | none, none => Except.ok TradeSignal.HOLD

/-- One daily OHLC bar (the columns calculate_atr reads). -/
structure Bar where
  high : ℚ
  low : ℚ
  close : ℚ
deriving DecidableEq, Repr

/-- True range of the rows after the first: the previous close is
available, so tr = max(high - low, |high - prevClose|, |low - prevClose|). -/
def trAux (prev : Bar) : List Bar → List ℚ
  | [] => []
  | b :: rest =>
      max (b.high - b.low) (max |b.high - prev.close| |b.low - prev.close|) ::
        trAux b rest

/-- The 'tr' column: on the first row `close.shift(1)` is NaN, the two
absolute-difference columns are NaN there, and the row-wise max skips
NaN, leaving high - low. -/
def trueRange : List Bar → List ℚ
  | [] => []
  | b :: rest => (b.high - b.low) :: trAux b rest

/-- Tail of `ewm(alpha, adjust=False).mean()` after the seed `v`. -/
def ewmRec (a : ℚ) (v : ℚ) : List ℚ → List ℚ
  | [] => []
  | x :: rest => (a * x + (1 - a) * v) :: ewmRec a (a * x + (1 - a) * v) rest

/-- pandas `ewm(alpha=a, adjust=False).mean()`: seeded with the first
value, then v_t = a * x_t + (1 - a) * v_(t-1). -/
def ewm (a : ℚ) : List ℚ → List ℚ
  | [] => []
  | x :: rest => x :: ewmRec a x rest

/-- A pandas DataFrame of rational columns, keyed by column name. -/
abbrev DataFrame := List (String × List ℚ)

/-- Column lookup; none models the KeyError of a missing column. -/
def getCol (df : DataFrame) (name : String) : Option (List ℚ) :=
  (df.find? fun c => c.1 == name).map fun c => c.2

/-- Rows of an OHLC frame, zipped into bars. -/
def zipBars (hs ls cs : List ℚ) : List Bar :=
  (hs.zip (ls.zip cs)).map fun x => ⟨x.1, x.2.1, x.2.2⟩

/-- backtester.calculate_atr (the identical copy lives in
bot_modules/executor.py): true range per row, then
`tr.ewm(alpha=1/period, adjust=False).mean()` as the 'atr' column.  A
missing high/low/close column raises KeyError.  The three scratch
difference columns of the source hold NaN in their first row and are
only consumed by the row-wise max that builds 'tr' (which skips NaN);
they are folded into the 'tr' computation here. -/
def calculate_atr (df : DataFrame) (period : ℕ := 14) :
    Except PyErr DataFrame :=
  match getCol df "high", getCol df "low", getCol df "close" with
  | some hs, some ls, some cs =>
      let tr := trueRange (zipBars hs ls cs)
      Except.ok (df ++ [("tr", tr), ("atr", ewm (1 / (period : ℚ)) tr)])
  | _, _, _ => Except.error PyErr.KeyError

/-- The atr column as computed on a list of bars (the view the
backtester's entry step reads at the current date's row). -/
def atrList (bs : List Bar) (period : ℕ) : List ℚ :=
  ewm (1 / (period : ℚ)) (trueRange bs)

/-- The price-field level of the price_df column MultiIndex. -/
inductive PriceField
  | Open
  | High
  | Low
  | Close
deriving DecidableEq, Repr

/-- The historical price table: `price_df.loc[date, (field, ticker)]`.
Dates are day indices; none models the KeyError of a missing row or
column. -/
def Prices := ℕ → String → PriceField → Option ℚ

/-- An open position exactly as run_backtest stores it in
`portfolio['positions'][ticker]`. -/
structure Position where
  quantity : ℤ
  entry_price : ℚ
  entry_date : ℕ
  signal : TradeSignal
  stop_loss : ℚ
  take_profit : ℚ
deriving DecidableEq, Repr

/-- The portfolio dict: cash plus the positions dict, modelled as an
association list in insertion order (dict keys are unique, and the
simulation inserts a ticker only when it is absent). -/
structure Portfolio where
  cash : ℚ
  positions : List (String × Position)
deriving DecidableEq, Repr

/-- The ledger actions recorded in trade_log. -/
inductive LedgerAction
  | ENTER
  | EXIT_TP
  | EXIT_SL
deriving DecidableEq, Repr

/-- One trade_log tuple (date, action, ticker, quantity, price). -/
structure LedgerEntry where
  date : ℕ
  action : LedgerAction
  ticker : String
  quantity : ℤ
  price : ℚ
deriving DecidableEq, Repr

/-- The exit branch of run_backtest for one open position, given the
day's high and low: BUY exits at take_profit when high ≥ take_profit,
else at stop_loss when low ≤ stop_loss; SELL exits at take_profit when
low ≤ take_profit, else at stop_loss when high ≥ stop_loss.  Any other
stored signal value matches no branch.  none = the position stays. -/
def evaluate_exit (hi lo : ℚ) (pos : Position) :
    Option (LedgerAction × ℚ) :=
  match pos.signal with
  | TradeSignal.BUY =>
      if pos.take_profit ≤ hi then some (LedgerAction.EXIT_TP, pos.take_profit)
      else if lo ≤ pos.stop_loss then
        some (LedgerAction.EXIT_SL, pos.stop_loss)
      else none
  | TradeSignal.SELL =>
      if lo ≤ pos.take_profit then some (LedgerAction.EXIT_TP, pos.take_profit)
      else if pos.stop_loss ≤ hi then
        some (LedgerAction.EXIT_SL, pos.stop_loss)
      else none
  | TradeSignal.HOLD => none

/-- One iteration of run_backtest's exit loop for the ticker/position
pair: look up the day's high and low (a KeyError on either leaves the
position untouched), evaluate the exit, and on an exit credit
quantity * exit_price to cash, append the ledger row and delete the
ticker from the positions dict. -/
def process_exit (prices : Prices) (date : ℕ) (tk : String) (pos : Position)
    (st : Portfolio × List LedgerEntry) : Portfolio × List LedgerEntry :=
  match prices date tk PriceField.High, prices date tk PriceField.Low with
  | some hi, some lo =>
      match evaluate_exit hi lo pos with
      | some (act, px) =>
          ({ cash := st.1.cash + pos.quantity * px,
             positions := st.1.positions.filter fun e => e.1 != tk },
           st.2 ++ [{ date := date, action := act, ticker := tk,
                      quantity := pos.quantity, price := px }])
      | none => st
  | _, _ => st

/-- run_backtest's exit loop over a snapshot of the position keys. -/
def process_exits (prices : Prices) (date : ℕ) (pf : Portfolio)
    (log : List LedgerEntry) : Portfolio × List LedgerEntry :=
  pf.positions.foldl (fun st e => process_exit prices date e.1 e.2 st) (pf, log)

/-- The sizing-and-entry tail of run_backtest (lines 130-142): size the
position as round(cash * cash_at_risk / entry_price); when the quantity
is positive, deduct quantity * entry_price from cash, store the position
with stop at 2 ATR and target at 4 ATR (above entry for BUY, below for
SELL reversed), and append the ENTER ledger row; otherwise change
nothing. -/
def open_position (cash_at_risk : ℚ) (date : ℕ) (tk : String)
    (sentiment : TradeSignal) (entry_price atr : ℚ) (pf : Portfolio)
    (log : List LedgerEntry) : Portfolio × List LedgerEntry :=
  let quantity := pyround (pf.cash * cash_at_risk / entry_price)
  if 0 < quantity then
    ({ cash := pf.cash - quantity * entry_price,
       positions := pf.positions ++ [(tk,
         { quantity := quantity, entry_price := entry_price,
           entry_date := date, signal := sentiment,
           stop_loss := if sentiment = TradeSignal.BUY then
               entry_price - atr * 2 else entry_price + atr * 2,
           take_profit := if sentiment = TradeSignal.BUY then
               entry_price + atr * 4 else entry_price - atr * 4 })] },
     log ++ [{ date := date, action := LedgerAction.ENTER, ticker := tk,
               quantity := quantity, price := entry_price }])
  else (pf, log)

/-- run_backtest's try-block for a candidate entry (lines 117-146):
`price_df.xs(ticker)` (KeyError when the ticker has no columns), the
technical confirmation (IndexError on an empty frame), the hard veto
unless sentiment equals the technical signal, the Open-price lookup, the
atr value at the date's row, then sizing and entry.  KeyError and
IndexError are caught and leave the state unchanged; a zero entry price
would raise an uncaught ZeroDivisionError in the sizing division. -/
def try_enter (prices : Prices) (hist : String → Option (List Bar))
    (dateIdx : String → ℕ → Option ℕ) (cash_at_risk : ℚ)
    (period fast_window slow_window : ℕ) (date : ℕ) (tk : String)
    (sentiment : TradeSignal) (pf : Portfolio) (log : List LedgerEntry) :
    Except PyErr (Portfolio × List LedgerEntry) :=
  match hist tk with
  | none => Except.ok (pf, log)
  | some bars =>
      match check_ma_crossover_signal (bars.map Bar.close)
          fast_window slow_window with
      | Except.error _ => Except.ok (pf, log)
      | Except.ok technical =>
          if sentiment = technical then
            match prices date tk PriceField.Open with
            | none => Except.ok (pf, log)
            | some entry_price =>
                match dateIdx tk date >>= (atrList bars period).get? with
                | none => Except.ok (pf, log)
                | some atr =>
                    if entry_price = 0 then
                      Except.error PyErr.ZeroDivisionError
                    else
                      Except.ok (open_position cash_at_risk date tk sentiment
                        entry_price atr pf log)
          else Except.ok (pf, log)

/-- The end-of-day valuation sum (lines 149-155): each open position is
marked at the day's close, or at its own entry price when the close
lookup raises KeyError. -/
def positions_value (prices : Prices) (date : ℕ)
    (positions : List (String × Position)) : ℚ :=
  positions.foldl
    (fun acc e =>
      match prices date e.1 PriceField.Close with
      | some c => acc + e.2.quantity * c
      | none => acc + e.2.quantity * e.2.entry_price) 0

/-- cash plus mark-to-market of the open positions. -/
def total_value (prices : Prices) (date : ℕ) (pf : Portfolio) : ℚ :=
  pf.cash + positions_value prices date pf.positions

/-- The state run_backtest threads through the daily loop. -/
structure BTState where
  pf : Portfolio
  log : List LedgerEntry
  values : List (ℕ × ℚ)
deriving Repr

/-- One iteration of run_backtest's daily loop: (a) exit evaluation for
every open position, (b) for the day's analysed news, filter and rank
signals, take the top row, its primary ticker `tickers[0]` (an uncaught
IndexError when the tag list is empty), and attempt a confirmed entry
when the ticker is not already held, (c) append the day's portfolio
value sample.  Sentiment analysis is the external classifier, so the
day's news rows arrive already analysed.  entryStep is step (b): the
signal selection and the guarded entry attempt. -/
def entryStep (prices : Prices) (hist : String → Option (List Bar))
    (dateIdx : String → ℕ → Option ℕ)
    (confidence_threshold cash_at_risk : ℚ)
    (period fast_window slow_window : ℕ) (date : ℕ)
    (news : List NewsRow) (exited : Portfolio × List LedgerEntry) :
    Except PyErr (Portfolio × List LedgerEntry) :=
  match (rank_signals (find_trade_signals news confidence_threshold)).head? with
  | none => Except.ok exited
  | some top =>
      match top.tickers.head? with
      | none => Except.error PyErr.IndexError
      | some tk =>
          if exited.1.positions.any fun e => e.1 == tk then Except.ok exited
          else
            try_enter prices hist dateIdx cash_at_risk period fast_window
              slow_window date tk top.signal exited.1 exited.2

/-- Steps (a), (b) and (c) of one simulated day in run_backtest's fixed
order: exits first, then the entry attempt, then the day's
portfolio-value sample. -/
def dayStep (prices : Prices) (hist : String → Option (List Bar))
    (dateIdx : String → ℕ → Option ℕ)
    (confidence_threshold cash_at_risk : ℚ)
    (period fast_window slow_window : ℕ) (date : ℕ)
    (news : List NewsRow) (st : BTState) : Except PyErr BTState :=
  match entryStep prices hist dateIdx confidence_threshold cash_at_risk period
      fast_window slow_window date news
      (process_exits prices date st.pf st.log) with
  | Except.error e => Except.error e
  | Except.ok (pf2, log2) =>
      Except.ok ⟨pf2, log2,
        st.values ++ [(date, pf2.cash + positions_value prices date pf2.positions)]⟩

/-- The daily loop over the simulated calendar: each day carries its
(possibly empty) list of analysed news rows. -/
def runDays (prices : Prices) (hist : String → Option (List Bar))
    (dateIdx : String → ℕ → Option ℕ)
    (confidence_threshold cash_at_risk : ℚ)
    (period fast_window slow_window : ℕ) :
    List (ℕ × List NewsRow) → BTState → Except PyErr BTState
  | [], st => Except.ok st
  | (date, news) :: rest, st =>
      match dayStep prices hist dateIdx confidence_threshold cash_at_risk
          period fast_window slow_window date news st with
      | Except.error e => Except.error e
      | Except.ok st' =>
          runDays prices hist dateIdx confidence_threshold cash_at_risk
            period fast_window slow_window rest st'

/-- run_backtest's initial state: cash = 100000, no positions, empty
ledgers. -/
def initState : BTState := ⟨⟨100000, []⟩, [], []⟩

/-! ## Helper lemmas -/

theorem pyround_le (x : ℚ) : (pyround x : ℚ) ≤ x + 1 / 2 := by
  unfold pyround
  split
  · rename_i h
    have hfl : (⌊x⌋ : ℚ) = x - 1 / 2 := by linarith
    split
    · linarith
    · push_cast
      linarith
  · rw [round_eq]
    exact_mod_cast Int.floor_le (x + 1 / 2)

theorem pyround_intCast (n : ℤ) : pyround (n : ℚ) = n := by
  unfold pyround
  rw [Int.floor_intCast]
  rw [show (n : ℚ) - n = 0 by ring]
  rw [if_neg (by norm_num)]
  exact round_intCast n

theorem half_le_of_one_le_pyround (x : ℚ) (h : 1 ≤ pyround x) : 1 / 2 ≤ x := by
  have h1 : (1 : ℚ) ≤ (pyround x : ℚ) := by exact_mod_cast h
  have := pyround_le x
  linarith

/-- Sizing never spends more than the available cash: when the rounded
quantity is at least one share, its cost quantity * entry_price stays
within cash, for any cash-at-risk fraction up to one half. -/
theorem cost_le_cash (cash p f : ℚ) (hc : 0 ≤ cash) (hp : 0 < p)
    (hf2 : 2 * f ≤ 1)
    (hq : 1 ≤ pyround (cash * f / p)) :
    (pyround (cash * f / p) : ℚ) * p ≤ cash := by
  have hx := half_le_of_one_le_pyround _ hq
  have hub := pyround_le (cash * f / p)
  have hne : p ≠ 0 := ne_of_gt hp
  have h1 : 1 / 2 * p ≤ cash * f := (le_div_iff₀ hp).mp hx
  have h2 : (pyround (cash * f / p) : ℚ) * p ≤ (cash * f / p + 1 / 2) * p :=
    mul_le_mul_of_nonneg_right hub (le_of_lt hp)
  have h3 : (cash * f / p + 1 / 2) * p = cash * f + 1 / 2 * p := by
    field_simp
    ring
  nlinarith [mul_le_mul_of_nonneg_left hf2 hc]

/-! ## C2: entry sizing, stops, targets, cash deduction and ledger row -/

/-- C2: with cash-at-risk fraction 0.05, a confirmed entry sizes
quantity = round(0.05 * cash / entry_price); when the quantity is not
positive nothing happens, and otherwise cash drops by
quantity * entry_price, the stored position carries stop_loss at
2 ATR and take_profit at 4 ATR below/above entry (BUY above, SELL
mirrored), and one ENTER ledger row is appended. -/
theorem C2_entry_sizing (date : ℕ) (tk : String) (s : TradeSignal)
    (p a : ℚ) (pf : Portfolio) (log : List LedgerEntry)
    (hq : 0 < pyround (pf.cash * (1 / 20) / p)) :
    open_position (1 / 20) date tk s p a pf log =
      ({ cash := pf.cash - pyround (pf.cash * (1 / 20) / p) * p,
         positions := pf.positions ++ [(tk,
           { quantity := pyround (pf.cash * (1 / 20) / p), entry_price := p,
             entry_date := date, signal := s,
             stop_loss := if s = TradeSignal.BUY then p - a * 2 else p + a * 2,
             take_profit := if s = TradeSignal.BUY then p + a * 4
               else p - a * 4 })] },
       log ++ [{ date := date, action := LedgerAction.ENTER, ticker := tk,
                 quantity := pyround (pf.cash * (1 / 20) / p), price := p }]) ∧
    ∀ pf' log', pyround (pf'.cash * (1 / 20) / p) ≤ 0 →
      open_position (1 / 20) date tk s p a pf' log' = (pf', log') := by
  constructor
  · unfold open_position
    rw [if_pos hq]
  · intro pf' log' hle
    unfold open_position
    rw [if_neg (not_lt.mpr hle)]

/-- C2 witness: the spec scenario cash = 100000, entry price 100,
ATR = 2 on a BUY gives quantity 50, stop 96, target 108, cash 95000 and
one ENTER ledger row. -/
theorem C2_entry_sizing_witness :
    open_position (1 / 20) 0 "X" TradeSignal.BUY 100 2 ⟨100000, []⟩ [] =
      ({ cash := 95000,
         positions := [("X",
           { quantity := 50, entry_price := 100, entry_date := 0,
             signal := TradeSignal.BUY, stop_loss := 96,
             take_profit := 108 })] },
       [{ date := 0, action := LedgerAction.ENTER, ticker := "X",
          quantity := 50, price := 100 }]) := by
  have hq50 : pyround ((⟨100000, []⟩ : Portfolio).cash * (1 / 20) / 100) =
      (50 : ℤ) := by
    rw [show (⟨100000, []⟩ : Portfolio).cash * (1 / 20) / 100 =
      ((50 : ℤ) : ℚ) by norm_num]
    exact pyround_intCast 50
  have h := (C2_entry_sizing 0 "X" TradeSignal.BUY 100 2 ⟨100000, []⟩ []
    (by rw [hq50]; norm_num)).1
  rw [h, hq50]
  norm_num

/-! ## C4: ranking tie-break -/

/-- Stability of the underlying ascending sort: a list whose rows all
share one confidence value is left in its original order. -/
theorem insertionSort_const_confidence (c : ℚ) :
    ∀ rows : List SignalRow, (∀ r ∈ rows, r.confidence = c) →
      List.insertionSort confLE rows = rows
  | [], _ => rfl
  | r :: rest, h => by
      rw [List.insertionSort,
        insertionSort_const_confidence c rest
          fun x hx => h x (List.mem_cons_of_mem _ hx)]
      cases rest with
      | nil => rfl
      | cons b bs =>
          have hle : confLE r b := by
            unfold confLE
            rw [h r (List.mem_cons_self _ _),
              h b (List.mem_cons_of_mem _ (List.mem_cons_self _ _))]
          show (if confLE r b then r :: b :: bs
            else b :: List.orderedInsert confLE r bs) = r :: b :: bs
          rw [if_pos hle]

/-- The two equal-confidence signal rows of the tie-break scenario. -/
def rowFirst : SignalRow :=
  ⟨Sentiment.positive, 95 / 100, ["X"], TradeSignal.BUY⟩

/-- The second-listed equal-confidence signal row. -/
def rowSecond : SignalRow :=
  ⟨Sentiment.positive, 95 / 100, ["Y"], TradeSignal.BUY⟩

instance : IsTotal SignalRow confLE :=
  ⟨fun a b => le_total a.confidence b.confidence⟩

instance : IsTrans SignalRow confLE :=
  ⟨fun _ _ _ hab hbc => le_trans hab hbc⟩

/-- Stability of orderedInsert, phrased through filtering one
confidence class: the inserted row lands in front of every row of its
own confidence (rows it passes over are strictly smaller). -/
theorem filter_orderedInsert (c : ℚ) (a : SignalRow)
    (l : List SignalRow) :
    (List.orderedInsert confLE a l).filter (fun x => x.confidence == c) =
      if a.confidence = c then
        a :: l.filter (fun x => x.confidence == c)
      else l.filter (fun x => x.confidence == c) := by
  induction l with
  | nil =>
      show List.filter (fun x => x.confidence == c) [a] = _
      by_cases h : a.confidence = c
      · simp [List.filter_cons, beq_iff_eq, h]
      · simp [List.filter_cons, beq_iff_eq, h]
  | cons b l ih =>
      show (if confLE a b then a :: b :: l
        else b :: List.orderedInsert confLE a l).filter
          (fun x => x.confidence == c) = _
      by_cases hab : confLE a b
      · rw [if_pos hab]
        by_cases h : a.confidence = c
        · simp [List.filter_cons, beq_iff_eq, h]
        · simp [List.filter_cons, beq_iff_eq, h]
      · rw [if_neg hab]
        have hblt : b.confidence < a.confidence := not_le.mp hab
        by_cases h : a.confidence = c
        · have hbc : ¬ b.confidence = c := fun hb =>
            absurd (hb.trans h.symm) (ne_of_lt hblt)
          simp [List.filter_cons, beq_iff_eq, h, hbc, ih]
        · simp [List.filter_cons, beq_iff_eq, h, ih]

/-- Stability of the ascending insertion sort: each confidence class
comes out in its original order. -/
theorem filter_insertionSort (c : ℚ) (l : List SignalRow) :
    (List.insertionSort confLE l).filter (fun x => x.confidence == c) =
      l.filter (fun x => x.confidence == c) := by
  induction l with
  | nil => rfl
  | cons a l ih =>
      show (List.orderedInsert confLE a
        (List.insertionSort confLE l)).filter
          (fun x => x.confidence == c) = _
      rw [filter_orderedInsert, ih]
      by_cases h : a.confidence = c
      · rw [if_pos h]
        simp [List.filter_cons, beq_iff_eq, h]
      · rw [if_neg h]
        simp [List.filter_cons, beq_iff_eq, h]

/-- C4: ranking is a stable sort by confidence descending: the ranked
output is a permutation of the input sorted by confidence descending,
every confidence class keeps its original (chronological) internal
order, and with two signals of equal confidence 0.95 the first-listed
one is selected as the top signal.  The pre-reversal of values and
index inside pandas' nargsort cancels the final indexer reversal on
ties, so the stable tie-break survives the descending sort. -/
theorem C4_rank_stable_descending (rows : List SignalRow) :
    List.Sorted (fun a b : SignalRow => b.confidence ≤ a.confidence)
      (rank_signals rows) ∧
    List.Perm (rank_signals rows) rows ∧
    (∀ c : ℚ, (rank_signals rows).filter (fun x => x.confidence == c) =
      rows.filter (fun x => x.confidence == c)) ∧
    (rank_signals [rowFirst, rowSecond]).head? = some rowFirst := by
  refine ⟨?_, ?_, ?_, ?_⟩
  · unfold rank_signals
    exact List.pairwise_reverse.mpr
      (List.sorted_insertionSort confLE rows.reverse)
  · unfold rank_signals
    exact ((List.reverse_perm _).trans
      (List.perm_insertionSort confLE rows.reverse)).trans
      (List.reverse_perm rows)
  · intro c
    unfold rank_signals
    rw [List.filter_reverse, filter_insertionSort, List.filter_reverse,
      List.reverse_reverse]
  · have hconf : ∀ r ∈ [rowSecond, rowFirst], r.confidence = 95 / 100 := by
      intro r hr
      rcases List.mem_cons.mp hr with rfl | hr2
      · rfl
      · rcases List.mem_cons.mp hr2 with rfl | hr3
        · rfl
        · exact absurd hr3 (List.not_mem_nil r)
    show ((List.insertionSort confLE [rowSecond, rowFirst]).reverse).head? =
      some rowFirst
    rw [insertionSort_const_confidence (95 / 100) _ hconf]
    rfl

/-! ## C5: the ATR recursion -/

theorem trAux_length (bs : List Bar) :
    ∀ prev : Bar, (trAux prev bs).length = bs.length := by
  induction bs with
  | nil => intro prev; rfl
  | cons b rest ih => intro prev; simp [trAux, ih b]

theorem trueRange_length (bs : List Bar) :
    (trueRange bs).length = bs.length := by
  cases bs with
  | nil => rfl
  | cons b rest => simp [trueRange, trAux_length]

theorem ewmRec_length (a : ℚ) (xs : List ℚ) :
    ∀ v : ℚ, (ewmRec a v xs).length = xs.length := by
  induction xs with
  | nil => intro v; rfl
  | cons x rest ih => intro v; simp [ewmRec, ih]

theorem ewm_length (a : ℚ) (xs : List ℚ) : (ewm a xs).length = xs.length := by
  cases xs with
  | nil => rfl
  | cons x rest => simp [ewm, ewmRec_length]

theorem ewm_get_zero (a : ℚ) (xs : List ℚ) :
    (ewm a xs).get? 0 = xs.get? 0 := by
  cases xs <;> rfl

theorem ewmRec_get_succ (a : ℚ) (xs : List ℚ) :
    ∀ (v : ℚ) (i : ℕ),
      (ewmRec a v xs).get? (i + 1) =
        Option.map₂ (fun x w => a * x + (1 - a) * w) (xs.get? (i + 1))
          ((ewmRec a v xs).get? i) := by
  induction xs with
  | nil => intro v i; rfl
  | cons x rest ih =>
      intro v i
      cases i with
      | zero => cases rest <;> rfl
      | succ i =>
          simp only [ewmRec, List.get?_cons_succ]
          exact ih (a * x + (1 - a) * v) i

theorem ewm_get_succ (a : ℚ) (xs : List ℚ) (i : ℕ) :
    (ewm a xs).get? (i + 1) =
      Option.map₂ (fun x w => a * x + (1 - a) * w) (xs.get? (i + 1))
        ((ewm a xs).get? i) := by
  cases xs with
  | nil => rfl
  | cons x rest =>
      cases i with
      | zero => cases rest <;> rfl
      | succ i =>
          simp only [ewm, List.get?_cons_succ]
          exact ewmRec_get_succ a rest x i

theorem trueRange_get_zero (bs : List Bar) :
    (trueRange bs).get? 0 = (bs.get? 0).map fun b => b.high - b.low := by
  cases bs <;> rfl

theorem trAux_get_succ (bs : List Bar) :
    ∀ (prev : Bar) (i : ℕ),
      (trAux prev bs).get? (i + 1) =
        Option.map₂
          (fun b p => max (b.high - b.low)
            (max |b.high - p.close| |b.low - p.close|))
          (bs.get? (i + 1)) (bs.get? i) := by
  induction bs with
  | nil => intro prev i; rfl
  | cons b rest ih =>
      intro prev i
      cases i with
      | zero => cases rest <;> rfl
      | succ i =>
          simp only [trAux, List.get?_cons_succ]
          exact ih b i

theorem trueRange_get_succ (bs : List Bar) (i : ℕ) :
    (trueRange bs).get? (i + 1) =
      Option.map₂
        (fun b p => max (b.high - b.low)
          (max |b.high - p.close| |b.low - p.close|))
        (bs.get? (i + 1)) (bs.get? i) := by
  cases bs with
  | nil => rfl
  | cons b rest =>
      cases i with
      | zero => cases rest <;> rfl
      | succ i =>
          simp only [trueRange, List.get?_cons_succ]
          exact trAux_get_succ rest b i

/-- An OHLC frame built from a list of bars, as price_df.xs lays one
out for a single ticker. -/
def barsFrame (bs : List Bar) : DataFrame :=
  [("high", bs.map Bar.high), ("low", bs.map Bar.low),
   ("close", bs.map Bar.close)]

theorem zipBars_map (bs : List Bar) :
    zipBars (bs.map Bar.high) (bs.map Bar.low) (bs.map Bar.close) = bs := by
  induction bs with
  | nil => rfl
  | cons b rest ih =>
      show (⟨b.high, b.low, b.close⟩ : Bar) ::
        zipBars (rest.map Bar.high) (rest.map Bar.low)
          (rest.map Bar.close) = b :: rest
      rw [ih]

theorem calculate_atr_barsFrame (bs : List Bar) (period : ℕ) :
    calculate_atr (barsFrame bs) period =
      Except.ok (barsFrame bs ++
        [("tr", trueRange bs), ("atr", atrList bs period)]) := by
  show Except.ok (barsFrame bs ++
      [("tr", trueRange (zipBars (bs.map Bar.high) (bs.map Bar.low)
          (bs.map Bar.close))),
        ("atr", ewm (1 / (period : ℚ))
          (trueRange (zipBars (bs.map Bar.high) (bs.map Bar.low)
            (bs.map Bar.close))))]) = _
  rw [zipBars_map]
  rfl

/-- C5: the volatility estimator emits a tr column with
tr_t = max(high - low, |high - prevClose|, |low - prevClose|) for every
row after the first, and an atr column obeying
v_t = alpha * tr_t + (1 - alpha) * v_(t-1) with alpha = 1/period
(period defaulting to 14), seeded with v_0 = tr_0; both columns cover
every input row, so early values are emitted unsuppressed. -/
theorem C5_atr_recursion (bs : List Bar) (period : ℕ) :
    calculate_atr (barsFrame bs) period =
      Except.ok (barsFrame bs ++
        [("tr", trueRange bs), ("atr", atrList bs period)]) ∧
    (trueRange bs).length = bs.length ∧
    (atrList bs period).length = bs.length ∧
    (atrList bs period).get? 0 = (trueRange bs).get? 0 ∧
    (∀ b, bs.get? 0 = some b →
      (trueRange bs).get? 0 = some (b.high - b.low)) ∧
    (∀ i b p, bs.get? (i + 1) = some b → bs.get? i = some p →
      (trueRange bs).get? (i + 1) =
        some (max (b.high - b.low)
          (max |b.high - p.close| |b.low - p.close|))) ∧
    (∀ i x w, (trueRange bs).get? (i + 1) = some x →
      (atrList bs period).get? i = some w →
      (atrList bs period).get? (i + 1) =
        some (1 / (period : ℚ) * x + (1 - 1 / (period : ℚ)) * w)) := by
  refine ⟨calculate_atr_barsFrame bs period, trueRange_length bs, ?_, ?_,
    ?_, ?_, ?_⟩
  · rw [atrList, ewm_length, trueRange_length]
  · exact ewm_get_zero _ _
  · intro b hb
    rw [trueRange_get_zero, hb]
    rfl
  · intro i b p hb hp
    rw [trueRange_get_succ, hb, hp]
    rfl
  · intro i x w hx hw
    rw [atrList] at hw ⊢
    rw [ewm_get_succ, hx, hw]
    rfl

/-- C5 witness: the recursion evaluated on the two-bar series
(3,1,2), (5,2,4) with period 14: tr = [2, 3] and
atr_1 = 1/14 * 3 + 13/14 * 2. -/
theorem C5_atr_recursion_witness :
    (trueRange [⟨3, 1, 2⟩, ⟨5, 2, 4⟩]).get? 1 = some 3 ∧
    (atrList [⟨3, 1, 2⟩, ⟨5, 2, 4⟩] 14).get? 1 =
      some (1 / (14 : ℚ) * 3 + (1 - 1 / (14 : ℚ)) * 2) := by
  obtain ⟨-, -, -, h0, hz, htr, hv⟩ :=
    C5_atr_recursion [⟨3, 1, 2⟩, ⟨5, 2, 4⟩] 14
  have h1 : (trueRange [⟨3, 1, 2⟩, ⟨5, 2, 4⟩]).get? 1 =
      some (max ((5 : ℚ) - 2) (max |(5 : ℚ) - 2| |(2 : ℚ) - 2|)) :=
    htr 0 ⟨5, 2, 4⟩ ⟨3, 1, 2⟩ rfl rfl
  have h1' : (trueRange [⟨3, 1, 2⟩, ⟨5, 2, 4⟩]).get? 1 = some 3 := by
    rw [h1]
    norm_num
  have h2 : (atrList [⟨3, 1, 2⟩, ⟨5, 2, 4⟩] 14).get? 0 = some 2 := by
    rw [h0]
    have := hz ⟨3, 1, 2⟩ rfl
    rw [this]
    norm_num
  exact ⟨h1', hv 0 3 2 h1' h2⟩

/-! ## C7: volatility-estimator failure conditions -/

/-- C7 counterexample: a zero-row series whose required high/low/close
columns are present makes calculate_atr return a normal (empty-column)
result, not a failure of any kind. -/
theorem C7_atr_zero_rows_counterexample :
    calculate_atr [("high", []), ("low", []), ("close", [])] 14 =
      Except.ok [("high", []), ("low", []), ("close", []),
        ("tr", []), ("atr", [])] ∧
    (Except.ok [("high", []), ("low", []), ("close", []),
        ("tr", []), ("atr", [])] : Except PyErr DataFrame) ≠
      Except.error PyErr.KeyError := by
  exact ⟨rfl, fun h => by cases h⟩

/-- C7 amended: calculate_atr fails (with a KeyError) exactly when one
of the required high/low/close columns is missing; a series with the
required columns present — zero rows included — returns a normal result
with tr and atr columns appended. -/
theorem C7_atr_failure_iff_missing_column (df : DataFrame) (period : ℕ) :
    (calculate_atr df period = Except.error PyErr.KeyError ↔
      getCol df "high" = none ∨ getCol df "low" = none ∨
        getCol df "close" = none) ∧
    ∀ hs ls cs, getCol df "high" = some hs → getCol df "low" = some ls →
      getCol df "close" = some cs →
      calculate_atr df period = Except.ok (df ++
        [("tr", trueRange (zipBars hs ls cs)),
         ("atr", ewm (1 / (period : ℚ)) (trueRange (zipBars hs ls cs)))]) := by
  cases hh : getCol df "high" <;> cases hl : getCol df "low" <;>
    cases hc : getCol df "close" <;>
    simp [calculate_atr, hh, hl, hc]

/-- C7 witness: the amended statement evaluated at a one-row frame with
all three columns present. -/
theorem C7_atr_failure_iff_missing_column_witness :
    calculate_atr [("high", [3]), ("low", [1]), ("close", [2])] 14 =
      Except.ok ([("high", [3]), ("low", [1]), ("close", [2])] ++
        [("tr", trueRange (zipBars [3] [1] [2])),
         ("atr", ewm (1 / (14 : ℚ)) (trueRange (zipBars [3] [1] [2])))]) :=
  (C7_atr_failure_iff_missing_column
    [("high", [3]), ("low", [1]), ("close", [2])] 14).2 [3] [1] [2]
    rfl rfl rfl

/-! ## C3: exit evaluation -/

/-- C3: on a day with price data, a BUY position exits at take_profit
with an EXIT_TP row when the high reaches take_profit (checked first,
so take-profit wins a same-day tie), else at stop_loss with an EXIT_SL
row when the low reaches stop_loss; mirrored for SELL (low at or below
take_profit exits TP, high at or above stop_loss exits SL); every exit
credits quantity * exit_price to cash, removes the position and appends
the ledger row. -/
theorem C3_exit_rules (prices : Prices) (date : ℕ) (tk : String)
    (pos : Position) (st : Portfolio × List LedgerEntry) (hi lo : ℚ)
    (hhi : prices date tk PriceField.High = some hi)
    (hlo : prices date tk PriceField.Low = some lo) :
    (pos.signal = TradeSignal.BUY → pos.take_profit ≤ hi →
      evaluate_exit hi lo pos =
        some (LedgerAction.EXIT_TP, pos.take_profit)) ∧
    (pos.signal = TradeSignal.BUY → hi < pos.take_profit →
      lo ≤ pos.stop_loss →
      evaluate_exit hi lo pos =
        some (LedgerAction.EXIT_SL, pos.stop_loss)) ∧
    (pos.signal = TradeSignal.SELL → lo ≤ pos.take_profit →
      evaluate_exit hi lo pos =
        some (LedgerAction.EXIT_TP, pos.take_profit)) ∧
    (pos.signal = TradeSignal.SELL → pos.take_profit < lo →
      pos.stop_loss ≤ hi →
      evaluate_exit hi lo pos =
        some (LedgerAction.EXIT_SL, pos.stop_loss)) ∧
    ∀ act px, evaluate_exit hi lo pos = some (act, px) →
      process_exit prices date tk pos st =
        ({ cash := st.1.cash + pos.quantity * px,
           positions := st.1.positions.filter fun e => e.1 != tk },
         st.2 ++ [{ date := date, action := act, ticker := tk,
                    quantity := pos.quantity, price := px }]) := by
  refine ⟨?_, ?_, ?_, ?_, ?_⟩
  · intro hsig htp
    unfold evaluate_exit
    rw [hsig]
    rw [if_pos htp]
  · intro hsig htp hsl
    unfold evaluate_exit
    rw [hsig]
    rw [if_neg (not_le.mpr htp), if_pos hsl]
  · intro hsig htp
    unfold evaluate_exit
    rw [hsig]
    rw [if_pos htp]
  · intro hsig htp hsl
    unfold evaluate_exit
    rw [hsig]
    rw [if_neg (not_le.mpr htp), if_pos hsl]
  · intro act px hex
    unfold process_exit
    rw [hhi, hlo]
    show (match evaluate_exit hi lo pos with
      | some (act, px) =>
        (({ cash := st.1.cash + pos.quantity * px,
            positions := st.1.positions.filter fun e => e.1 != tk } :
              Portfolio),
         st.2 ++ [({ date := date, action := act, ticker := tk,
                     quantity := pos.quantity, price := px } : LedgerEntry)])
      | none => st) = _
    rw [hex]

/-- C3 witness: the spec's take-profit scenario — an open BUY of 50
shares, stop 96 and target 108, on a day with high 109 and low 100,
exits at 108: cash 95000 becomes 100400, the position list empties and
one EXIT_TP row is appended. -/
theorem C3_exit_rules_witness :
    process_exit
      (fun _ _ f => match f with
        | PriceField.High => some 109
        | PriceField.Low => some 100
        | PriceField.Open => none
        | PriceField.Close => none)
      7 "X" ⟨50, 100, 0, TradeSignal.BUY, 96, 108⟩
      (⟨95000, [("X", ⟨50, 100, 0, TradeSignal.BUY, 96, 108⟩)]⟩, []) =
      (⟨100400, []⟩,
       [{ date := 7, action := LedgerAction.EXIT_TP, ticker := "X",
          quantity := 50, price := 108 }]) := by
  have h := C3_exit_rules
    (fun _ _ f => match f with
      | PriceField.High => some 109
      | PriceField.Low => some 100
      | PriceField.Open => none
      | PriceField.Close => none)
    7 "X" ⟨50, 100, 0, TradeSignal.BUY, 96, 108⟩
    (⟨95000, [("X", ⟨50, 100, 0, TradeSignal.BUY, 96, 108⟩)]⟩, []) 109 100
    rfl rfl
  have hex := h.1 rfl (by norm_num)
  rw [h.2.2.2.2 _ _ hex]
  norm_num

/-! ## C9: entry/valuation round-trip -/

/-- C9: opening a position deducts quantity * entry_price from cash, and
the end-of-day valuation marks the new position at its own entry price
(the close lookup misses, or the close equals the entry price), so the
post-entry total value equals the pre-entry total value: opening a
position neither creates nor destroys value. -/
theorem C9_entry_roundtrip (prices : Prices) (cash_at_risk : ℚ)
    (date : ℕ) (tk : String) (s : TradeSignal) (p a : ℚ)
    (pf : Portfolio) (log : List LedgerEntry)
    (hclose : prices date tk PriceField.Close = none ∨
      prices date tk PriceField.Close = some p) :
    total_value prices date
      (open_position cash_at_risk date tk s p a pf log).1 =
    total_value prices date pf := by
  unfold open_position
  by_cases hq : 0 < pyround (pf.cash * cash_at_risk / p)
  · rw [if_pos hq]
    unfold total_value positions_value
    rw [List.foldl_append]
    rcases hclose with h | h <;>
      simp only [h, List.foldl_cons, List.foldl_nil] <;> ring
  · rw [if_neg hq]

/-- C9 witness: the round-trip at the scenario entry (cash 100000,
price 100, ATR 2) with no close quote for the ticker that day. -/
theorem C9_entry_roundtrip_witness :
    total_value (fun _ _ _ => none) 0
      (open_position (1 / 20) 0 "X" TradeSignal.BUY 100 2
        ⟨100000, []⟩ []).1 =
    total_value (fun _ _ _ => none) 0 ⟨100000, []⟩ :=
  C9_entry_roundtrip (fun _ _ _ => none) (1 / 20) 0 "X" TradeSignal.BUY
    100 2 ⟨100000, []⟩ [] (Or.inl rfl)

/-! ## C10: SELL positions share the BUY cash accounting -/

/-- C10: a SELL entry deducts quantity * entry_price from cash exactly
like a BUY entry, its take_profit sits 4 ATR below entry, and a
take-profit exit credits quantity * exit_price, so the round-trip cash
change is quantity * (exit_price - entry_price) — strictly negative for
a winning short whenever ATR is positive. -/
theorem C10_sell_cash_accounting (prices : Prices) (date : ℕ)
    (tk : String) (p a hi lo : ℚ) (pf : Portfolio)
    (log log' : List LedgerEntry)
    (hq : 0 < pyround (pf.cash * (1 / 20) / p)) (ha : 0 < a)
    (hhi : prices date tk PriceField.High = some hi)
    (hlo : prices date tk PriceField.Low = some lo)
    (hfire : lo ≤ p - a * 4) :
    ∃ pos : Position,
      open_position (1 / 20) date tk TradeSignal.SELL p a pf log =
        ({ cash := pf.cash - pyround (pf.cash * (1 / 20) / p) * p,
           positions := pf.positions ++ [(tk, pos)] },
         log ++ [{ date := date, action := LedgerAction.ENTER,
                   ticker := tk,
                   quantity := pyround (pf.cash * (1 / 20) / p),
                   price := p }]) ∧
      pos.take_profit = p - a * 4 ∧
      evaluate_exit hi lo pos =
        some (LedgerAction.EXIT_TP, p - a * 4) ∧
      (process_exit prices date tk pos
          ({ cash := pf.cash - pyround (pf.cash * (1 / 20) / p) * p,
             positions := pf.positions ++ [(tk, pos)] }, log')).1.cash =
        pf.cash + pyround (pf.cash * (1 / 20) / p) * ((p - a * 4) - p) ∧
      pf.cash + pyround (pf.cash * (1 / 20) / p) * ((p - a * 4) - p) <
        pf.cash := by
  refine ⟨⟨pyround (pf.cash * (1 / 20) / p), p, date, TradeSignal.SELL,
    p + a * 2, p - a * 4⟩, ?_, rfl, ?_, ?_, ?_⟩
  · unfold open_position
    rw [if_pos hq]
    simp
  · unfold evaluate_exit
    show (if lo ≤ p - a * 4 then
        some (LedgerAction.EXIT_TP, p - a * 4)
      else if p + a * 2 ≤ hi then
        some (LedgerAction.EXIT_SL, p + a * 2)
      else none) = some (LedgerAction.EXIT_TP, p - a * 4)
    rw [if_pos hfire]
  · unfold process_exit
    rw [hhi, hlo]
    show (match evaluate_exit hi lo
        (⟨pyround (pf.cash * (1 / 20) / p), p, date, TradeSignal.SELL,
          p + a * 2, p - a * 4⟩ : Position) with
      | some (act, px) =>
        (({ cash := pf.cash - pyround (pf.cash * (1 / 20) / p) * p +
              pyround (pf.cash * (1 / 20) / p) * px,
            positions := (pf.positions ++ [(tk,
              (⟨pyround (pf.cash * (1 / 20) / p), p, date,
                TradeSignal.SELL, p + a * 2, p - a * 4⟩ :
                  Position))]).filter fun e => e.1 != tk } : Portfolio),
         log' ++ [({ date := date, action := act, ticker := tk,
                     quantity := pyround (pf.cash * (1 / 20) / p),
                     price := px } : LedgerEntry)])
      | none =>
          ({ cash := pf.cash - pyround (pf.cash * (1 / 20) / p) * p,
             positions := pf.positions ++ [(tk,
               (⟨pyround (pf.cash * (1 / 20) / p), p, date,
                 TradeSignal.SELL, p + a * 2, p - a * 4⟩ :
                   Position))] }, log')).1.cash =
      pf.cash + pyround (pf.cash * (1 / 20) / p) * ((p - a * 4) - p)
    have hex : evaluate_exit hi lo
        (⟨pyround (pf.cash * (1 / 20) / p), p, date, TradeSignal.SELL,
          p + a * 2, p - a * 4⟩ : Position) =
        some (LedgerAction.EXIT_TP, p - a * 4) := by
      unfold evaluate_exit
      show (if lo ≤ p - a * 4 then
          some (LedgerAction.EXIT_TP, p - a * 4)
        else if p + a * 2 ≤ hi then
          some (LedgerAction.EXIT_SL, p + a * 2)
        else none) = some (LedgerAction.EXIT_TP, p - a * 4)
      rw [if_pos hfire]
    rw [hex]
    ring
  · have hq1 : (1 : ℚ) ≤ pyround (pf.cash * (1 / 20) / p) := by
      exact_mod_cast hq
    nlinarith

/-- C10 witness: the SELL round-trip at cash 100000, entry 100, ATR 2,
day low 90: the short exits at its take-profit 92 and ends with less
cash than before the entry. -/
theorem C10_sell_cash_accounting_witness :
    ∃ pos : Position,
      open_position (1 / 20) 0 "X" TradeSignal.SELL 100 2 ⟨100000, []⟩ [] =
        ({ cash := 100000 - pyround ((100000 : ℚ) * (1 / 20) / 100) * 100,
           positions := [] ++ [("X", pos)] },
         [] ++ [{ date := 0, action := LedgerAction.ENTER, ticker := "X",
                  quantity := pyround ((100000 : ℚ) * (1 / 20) / 100),
                  price := 100 }]) ∧
      pos.take_profit = 100 - 2 * 4 ∧
      evaluate_exit 100 90 pos =
        some (LedgerAction.EXIT_TP, 100 - 2 * 4) ∧
      (process_exit
          (fun _ _ f => match f with
            | PriceField.High => some 100
            | PriceField.Low => some 90
            | PriceField.Open => none
            | PriceField.Close => none)
          0 "X" pos
          ({ cash := 100000 - pyround ((100000 : ℚ) * (1 / 20) / 100) * 100,
             positions := [] ++ [("X", pos)] }, [])).1.cash =
        100000 + pyround ((100000 : ℚ) * (1 / 20) / 100) *
          (((100 : ℚ) - 2 * 4) - 100) ∧
      100000 + (pyround ((100000 : ℚ) * (1 / 20) / 100) : ℚ) *
          (((100 : ℚ) - 2 * 4) - 100) < 100000 := by
  have hq : 0 < pyround ((100000 : ℚ) * (1 / 20) / 100) := by
    rw [show (100000 : ℚ) * (1 / 20) / 100 = ((50 : ℤ) : ℚ) by norm_num,
      pyround_intCast]
    norm_num
  exact C10_sell_cash_accounting
    (fun _ _ f => match f with
      | PriceField.High => some 100
      | PriceField.Low => some 90
      | PriceField.Open => none
      | PriceField.Close => none)
    0 "X" 100 2 100 90 ⟨100000, []⟩ [] [] hq (by norm_num) rfl rfl
    (by norm_num)

/-! ## C6: technical confirmation and the sentiment veto -/

theorem lastRollingMean_pos_length (xs : List ℚ) (w : ℕ) (v : ℚ)
    (h : lastRollingMean xs w = some v) : 0 < xs.length := by
  unfold lastRollingMean at h
  split at h
  · rename_i hc
    omega
  · cases h

/-- C6 counterexample: on a zero-row close series both SMAs are
undefined, yet the function raises IndexError (the iloc[-1] lookup)
instead of returning HOLD. -/
theorem C6_empty_series_counterexample :
    check_ma_crossover_signal [] 20 50 = Except.error PyErr.IndexError ∧
    (Except.error PyErr.IndexError : Except PyErr TradeSignal) ≠
      Except.ok TradeSignal.HOLD :=
  ⟨rfl, fun h => by cases h⟩

/-- C6 amended: on a nonempty close series the technical confirmation
returns BUY when the most recent fast SMA strictly exceeds the most
recent slow SMA, SELL when strictly below, and HOLD otherwise
(equal values, or either SMA undefined from insufficient history); a
zero-row series raises IndexError instead of returning HOLD (caught by
the backtester's per-ticker handler); and an entry is made only when
the technical signal equals the sentiment signal — a mismatch leaves
cash, positions and ledger unchanged. -/
theorem C6_ma_crossover_and_veto (closes : List ℚ)
    (fast_window slow_window : ℕ) :
    (∀ f s, lastRollingMean closes fast_window = some f →
      lastRollingMean closes slow_window = some s →
      (s < f → check_ma_crossover_signal closes fast_window slow_window =
        Except.ok TradeSignal.BUY) ∧
      (f < s → check_ma_crossover_signal closes fast_window slow_window =
        Except.ok TradeSignal.SELL) ∧
      (f = s → check_ma_crossover_signal closes fast_window slow_window =
        Except.ok TradeSignal.HOLD)) ∧
    (closes ≠ [] →
      (lastRollingMean closes fast_window = none ∨
        lastRollingMean closes slow_window = none) →
      check_ma_crossover_signal closes fast_window slow_window =
        Except.ok TradeSignal.HOLD) ∧
    (closes = [] →
      check_ma_crossover_signal closes fast_window slow_window =
        Except.error PyErr.IndexError) ∧
    (∀ (prices : Prices) (hist : String → Option (List Bar))
        (dateIdx : String → ℕ → Option ℕ) (cash_at_risk : ℚ)
        (period date : ℕ) (tk : String) (sentiment : TradeSignal)
        (pf : Portfolio) (log : List LedgerEntry) (bars : List Bar)
        (technical : TradeSignal),
      hist tk = some bars →
      check_ma_crossover_signal (bars.map Bar.close) fast_window
        slow_window = Except.ok technical →
      sentiment ≠ technical →
      try_enter prices hist dateIdx cash_at_risk period fast_window
        slow_window date tk sentiment pf log = Except.ok (pf, log)) := by
  refine ⟨?_, ?_, ?_, ?_⟩
  · intro f s hf hs
    have hlen := lastRollingMean_pos_length closes fast_window f hf
    have hshow : check_ma_crossover_signal closes fast_window slow_window =
        (if s < f then Except.ok TradeSignal.BUY
          else if f < s then Except.ok TradeSignal.SELL
          else Except.ok TradeSignal.HOLD) := by
      unfold check_ma_crossover_signal
      rw [if_neg (by omega), hf, hs]
    refine ⟨fun hlt => ?_, fun hlt => ?_, fun heq => ?_⟩
    · rw [hshow, if_pos hlt]
    · rw [hshow, if_neg (not_lt.mpr (le_of_lt hlt)), if_pos hlt]
    · subst heq
      rw [hshow, if_neg (lt_irrefl f), if_neg (lt_irrefl f)]
  · intro hne hnone
    unfold check_ma_crossover_signal
    rw [if_neg fun h0 => hne (List.length_eq_zero.mp h0)]
    rcases hnone with h | h
    · rw [h]
      cases hs : lastRollingMean closes slow_window <;> rfl
    · rw [h]
      cases hf : lastRollingMean closes fast_window <;> rfl
  · intro h
    subst h
    rfl
  · intro prices hist dateIdx cash_at_risk period date tk sentiment pf log
      bars technical hbars htech hne
    simp only [try_enter, hbars, htech]
    rw [if_neg hne]

/-- C6 witness: on closes 1, 2, 3 with windows 2 and 3 the fast SMA 5/2
strictly exceeds the slow SMA 2 and the confirmation returns BUY. -/
theorem C6_ma_crossover_and_veto_witness :
    check_ma_crossover_signal [1, 2, 3] 2 3 = Except.ok TradeSignal.BUY := by
  have hf : lastRollingMean [1, 2, 3] 2 = some (5 / 2) := by
    norm_num [lastRollingMean]
  have hs : lastRollingMean [1, 2, 3] 3 = some 2 := by
    norm_num [lastRollingMean]
  exact ((C6_ma_crossover_and_veto [1, 2, 3] 2 3).1 (5 / 2) 2 hf hs).1
    (by norm_num)

/-! ## C8: per-ticker lookup misses leave the state unchanged -/

/-- C8: a missing high or low quote during exit evaluation leaves the
position, cash and ledger untouched; during entry evaluation, a missing
ticker history, a technical-signal IndexError, a missing Open quote, or
a missing atr row each make the candidate a no-op with the ok (not
error) outcome, so the day's loop never aborts on a lookup miss. -/
theorem C8_lookup_miss_skips (prices : Prices)
    (hist : String → Option (List Bar)) (dateIdx : String → ℕ → Option ℕ)
    (cash_at_risk : ℚ) (period fast_window slow_window date : ℕ)
    (tk : String) (pos : Position) (sentiment : TradeSignal)
    (pf : Portfolio) (log : List LedgerEntry)
    (st : Portfolio × List LedgerEntry) :
    ((prices date tk PriceField.High = none ∨
        prices date tk PriceField.Low = none) →
      process_exit prices date tk pos st = st) ∧
    (hist tk = none →
      try_enter prices hist dateIdx cash_at_risk period fast_window
        slow_window date tk sentiment pf log = Except.ok (pf, log)) ∧
    (∀ bars e, hist tk = some bars →
      check_ma_crossover_signal (bars.map Bar.close) fast_window
        slow_window = Except.error e →
      try_enter prices hist dateIdx cash_at_risk period fast_window
        slow_window date tk sentiment pf log = Except.ok (pf, log)) ∧
    (∀ bars technical, hist tk = some bars →
      check_ma_crossover_signal (bars.map Bar.close) fast_window
        slow_window = Except.ok technical →
      sentiment = technical →
      prices date tk PriceField.Open = none →
      try_enter prices hist dateIdx cash_at_risk period fast_window
        slow_window date tk sentiment pf log = Except.ok (pf, log)) ∧
    (∀ bars technical p, hist tk = some bars →
      check_ma_crossover_signal (bars.map Bar.close) fast_window
        slow_window = Except.ok technical →
      sentiment = technical →
      prices date tk PriceField.Open = some p →
      dateIdx tk date >>= (atrList bars period).get? = none →
      try_enter prices hist dateIdx cash_at_risk period fast_window
        slow_window date tk sentiment pf log = Except.ok (pf, log)) := by
  refine ⟨?_, ?_, ?_, ?_, ?_⟩
  · intro h
    unfold process_exit
    rcases h with h | h
    · rw [h]
    · cases hh : prices date tk PriceField.High <;> rw [h]
  · intro h
    simp only [try_enter, h]
  · intro bars e hbars herr
    simp only [try_enter, hbars, herr]
  · intro bars technical hbars htech hsent hopen
    simp only [try_enter, hbars, htech]
    rw [if_pos hsent]
    simp only [hopen]
  · intro bars technical p hbars htech hsent hopen hatr
    simp only [try_enter, hbars, htech]
    rw [if_pos hsent]
    simp only [hopen, hatr]

/-- C8 witness: a fully quoteless day — the exit check leaves the state
alone and the entry attempt is an ok no-op. -/
theorem C8_lookup_miss_skips_witness :
    process_exit (fun _ _ _ => none) 0 "X"
      ⟨1, 1, 0, TradeSignal.BUY, 1, 1⟩ (⟨0, []⟩, []) = (⟨0, []⟩, []) ∧
    try_enter (fun _ _ _ => none) (fun _ => none) (fun _ _ => none)
      (1 / 20) 14 20 50 0 "X" TradeSignal.BUY ⟨1, []⟩ [] =
      Except.ok (⟨1, []⟩, []) := by
  have h := C8_lookup_miss_skips (fun _ _ _ => none) (fun _ => none)
    (fun _ _ => none) (1 / 20) 14 20 50 0 "X"
    ⟨1, 1, 0, TradeSignal.BUY, 1, 1⟩ TradeSignal.BUY ⟨1, []⟩ []
    (⟨0, []⟩, [])
  exact ⟨h.1 (Or.inl rfl), h.2.1 rfl⟩

/-! ## C1: cash stays nonnegative through every simulated day -/

/-- Facts run_backtest maintains for every stored position: nonnegative
quantity, and nonnegative take-profit (BUY) / stop-loss (SELL) — the two
exit prices whose exits are not already bounded below by the day's low. -/
def PosOK (p : Position) : Prop :=
  0 ≤ p.quantity ∧
  (p.signal = TradeSignal.BUY → 0 ≤ p.take_profit) ∧
  (p.signal = TradeSignal.SELL → 0 ≤ p.stop_loss)

theorem evaluate_exit_price_nonneg (hi lo : ℚ) (pos : Position)
    (act : LedgerAction) (px : ℚ) (hok : PosOK pos) (hlo : 0 ≤ lo)
    (h : evaluate_exit hi lo pos = some (act, px)) : 0 ≤ px := by
  obtain ⟨q, ep, ed, sig, sl, tp⟩ := pos
  obtain ⟨-, hbuy, hsell⟩ := hok
  cases sig
  case BUY =>
    simp only [evaluate_exit] at h
    split_ifs at h with h1 h2
    · simp only [Option.some.injEq, Prod.mk.injEq] at h
      rw [← h.2]
      exact hbuy rfl
    · simp only [Option.some.injEq, Prod.mk.injEq] at h
      rw [← h.2]
      exact le_trans hlo h2
  case SELL =>
    simp only [evaluate_exit] at h
    split_ifs at h with h1 h2
    · simp only [Option.some.injEq, Prod.mk.injEq] at h
      rw [← h.2]
      exact le_trans hlo h1
    · simp only [Option.some.injEq, Prod.mk.injEq] at h
      rw [← h.2]
      exact hsell rfl
  case HOLD =>
    simp only [evaluate_exit] at h
    exact Option.noConfusion h

theorem process_exit_no_quote (prices : Prices) (date : ℕ) (tk : String)
    (pos : Position) (st : Portfolio × List LedgerEntry)
    (h : prices date tk PriceField.High = none ∨
      prices date tk PriceField.Low = none) :
    process_exit prices date tk pos st = st := by
  unfold process_exit
  rcases h with h | h
  · rw [h]
  · cases hh : prices date tk PriceField.High <;> rw [h]

theorem process_exit_of_quotes (prices : Prices) (date : ℕ) (tk : String)
    (pos : Position) (st : Portfolio × List LedgerEntry) (hi lo : ℚ)
    (hh : prices date tk PriceField.High = some hi)
    (hl : prices date tk PriceField.Low = some lo) :
    process_exit prices date tk pos st =
      match evaluate_exit hi lo pos with
      | some (act, px) =>
          (({ cash := st.1.cash + pos.quantity * px,
              positions := st.1.positions.filter fun e => e.1 != tk } :
                Portfolio),
           st.2 ++ [({ date := date, action := act, ticker := tk,
                       quantity := pos.quantity, price := px } :
                         LedgerEntry)])
      | none => st := by
  unfold process_exit
  rw [hh, hl]

theorem process_exit_inv (prices : Prices) (date : ℕ) (tk : String)
    (pos : Position) (st : Portfolio × List LedgerEntry)
    (hprices : ∀ d t fld x, prices d t fld = some x → 0 < x)
    (hok : PosOK pos) (hc : 0 ≤ st.1.cash)
    (hall : ∀ e ∈ st.1.positions, PosOK e.2) :
    0 ≤ (process_exit prices date tk pos st).1.cash ∧
    ∀ e ∈ (process_exit prices date tk pos st).1.positions, PosOK e.2 := by
  cases hh : prices date tk PriceField.High with
  | none =>
      rw [process_exit_no_quote prices date tk pos st (Or.inl hh)]
      exact ⟨hc, hall⟩
  | some hi =>
      cases hl : prices date tk PriceField.Low with
      | none =>
          rw [process_exit_no_quote prices date tk pos st (Or.inr hl)]
          exact ⟨hc, hall⟩
      | some lo =>
          rw [process_exit_of_quotes prices date tk pos st hi lo hh hl]
          cases hex : evaluate_exit hi lo pos with
          | none => exact ⟨hc, hall⟩
          | some ap =>
              obtain ⟨act, px⟩ := ap
              have hpx := evaluate_exit_price_nonneg hi lo pos act px hok
                (le_of_lt (hprices date tk PriceField.Low lo hl)) hex
              constructor
              · have hq : (0 : ℚ) ≤ (pos.quantity : ℚ) := by
                  exact_mod_cast hok.1
                exact add_nonneg hc (mul_nonneg hq hpx)
              · intro e he
                exact hall e (List.mem_of_mem_filter he)

theorem process_exits_go_inv (prices : Prices) (date : ℕ)
    (hprices : ∀ d t fld x, prices d t fld = some x → 0 < x) :
    ∀ (l : List (String × Position)) (st : Portfolio × List LedgerEntry),
      (∀ e ∈ l, PosOK e.2) → 0 ≤ st.1.cash →
      (∀ e ∈ st.1.positions, PosOK e.2) →
      0 ≤ (l.foldl (fun st e => process_exit prices date e.1 e.2 st)
          st).1.cash ∧
      ∀ e ∈ (l.foldl (fun st e => process_exit prices date e.1 e.2 st)
          st).1.positions, PosOK e.2
  | [], _, _, h1, h2 => ⟨h1, h2⟩
  | x :: rest, st, hl, h1, h2 => by
      rw [List.foldl_cons]
      have hx := process_exit_inv prices date x.1 x.2 st hprices
        (hl x (List.mem_cons_self _ _)) h1 h2
      exact process_exits_go_inv prices date hprices rest _
        (fun e he => hl e (List.mem_cons_of_mem _ he)) hx.1 hx.2

theorem process_exits_inv (prices : Prices) (date : ℕ) (pf : Portfolio)
    (log : List LedgerEntry)
    (hprices : ∀ d t fld x, prices d t fld = some x → 0 < x)
    (hc : 0 ≤ pf.cash) (hall : ∀ e ∈ pf.positions, PosOK e.2) :
    0 ≤ (process_exits prices date pf log).1.cash ∧
    ∀ e ∈ (process_exits prices date pf log).1.positions, PosOK e.2 :=
  process_exits_go_inv prices date hprices pf.positions (pf, log) hall hc hall

theorem trAux_nonneg (bs : List Bar) :
    ∀ (prev : Bar) (x : ℚ), x ∈ trAux prev bs → 0 ≤ x := by
  induction bs with
  | nil => intro prev x hx; cases hx
  | cons b rest ih =>
      intro prev x hx
      rcases List.mem_cons.mp hx with rfl | hx'
      · exact le_trans (abs_nonneg (b.high - prev.close))
          (le_trans (le_max_left _ _) (le_max_right _ _))
      · exact ih b x hx'

theorem trueRange_nonneg (bs : List Bar)
    (hwf : ∀ b ∈ bs, b.low ≤ b.high) : ∀ x ∈ trueRange bs, 0 ≤ x := by
  cases bs with
  | nil => intro x hx; cases hx
  | cons b rest =>
      intro x hx
      rcases List.mem_cons.mp hx with rfl | hx'
      · have := hwf b (List.mem_cons_self _ _)
        linarith
      · exact trAux_nonneg rest b x hx'

theorem ewmRec_nonneg (a : ℚ) (ha0 : 0 ≤ a) (ha1 : a ≤ 1) (xs : List ℚ) :
    ∀ v : ℚ, 0 ≤ v → (∀ x ∈ xs, 0 ≤ x) → ∀ y ∈ ewmRec a v xs, 0 ≤ y := by
  induction xs with
  | nil => intro v _ _ y hy; cases hy
  | cons x rest ih =>
      intro v hv hxs y hy
      have hw : 0 ≤ a * x + (1 - a) * v :=
        add_nonneg (mul_nonneg ha0 (hxs x (List.mem_cons_self _ _)))
          (mul_nonneg (by linarith) hv)
      rcases List.mem_cons.mp hy with rfl | hy'
      · exact hw
      · exact ih (a * x + (1 - a) * v) hw
          (fun z hz => hxs z (List.mem_cons_of_mem _ hz)) y hy'

theorem ewm_nonneg (a : ℚ) (ha0 : 0 ≤ a) (ha1 : a ≤ 1) (xs : List ℚ)
    (hxs : ∀ x ∈ xs, 0 ≤ x) : ∀ y ∈ ewm a xs, 0 ≤ y := by
  cases xs with
  | nil => intro y hy; cases hy
  | cons x rest =>
      intro y hy
      rcases List.mem_cons.mp hy with rfl | hy'
      · exact hxs y (List.mem_cons_self _ _)
      · exact ewmRec_nonneg a ha0 ha1 rest x
          (hxs x (List.mem_cons_self _ _))
          (fun z hz => hxs z (List.mem_cons_of_mem _ hz)) y hy'

theorem alpha_bounds (period : ℕ) :
    0 ≤ 1 / (period : ℚ) ∧ 1 / (period : ℚ) ≤ 1 := by
  constructor
  · positivity
  · cases period with
    | zero => norm_num
    | succ n =>
        rw [div_le_one (by exact_mod_cast Nat.succ_pos n)]
        exact_mod_cast Nat.succ_le_succ (Nat.zero_le n)

theorem atrList_nonneg (bs : List Bar) (period : ℕ)
    (hwf : ∀ b ∈ bs, b.low ≤ b.high) : ∀ y ∈ atrList bs period, 0 ≤ y :=
  ewm_nonneg _ (alpha_bounds period).1 (alpha_bounds period).2 _
    (trueRange_nonneg bs hwf)

theorem open_position_inv (cash_at_risk : ℚ) (date : ℕ) (tk : String)
    (sentiment : TradeSignal) (entry_price atr : ℚ) (pf : Portfolio)
    (log : List LedgerEntry) (hp : 0 < entry_price) (ha : 0 ≤ atr)
    (hc : 0 ≤ pf.cash) (hf2 : 2 * cash_at_risk ≤ 1)
    (hall : ∀ e ∈ pf.positions, PosOK e.2) :
    0 ≤ (open_position cash_at_risk date tk sentiment entry_price atr
        pf log).1.cash ∧
    ∀ e ∈ (open_position cash_at_risk date tk sentiment entry_price atr
        pf log).1.positions, PosOK e.2 := by
  unfold open_position
  by_cases hq : 0 < pyround (pf.cash * cash_at_risk / entry_price)
  · rw [if_pos hq]
    constructor
    · have hcost := cost_le_cash pf.cash entry_price cash_at_risk hc hp
        hf2 (by omega)
      show 0 ≤ pf.cash -
        pyround (pf.cash * cash_at_risk / entry_price) * entry_price
      linarith
    · intro e he
      rcases List.mem_append.mp he with hmem | hmem
      · exact hall e hmem
      · rw [List.mem_singleton.mp hmem]
        refine ⟨le_of_lt hq, fun hb => ?_, fun hs => ?_⟩
        · have hb' : sentiment = TradeSignal.BUY := hb
          show (0 : ℚ) ≤ if sentiment = TradeSignal.BUY then
            entry_price + atr * 4 else entry_price - atr * 4
          rw [if_pos hb']
          linarith
        · have hs' : sentiment = TradeSignal.SELL := hs
          show (0 : ℚ) ≤ if sentiment = TradeSignal.BUY then
            entry_price - atr * 2 else entry_price + atr * 2
          rw [if_neg fun hb =>
            TradeSignal.noConfusion (hs'.symm.trans hb)]
          linarith
  · rw [if_neg hq]
    exact ⟨hc, hall⟩

theorem try_enter_inv (prices : Prices) (hist : String → Option (List Bar))
    (dateIdx : String → ℕ → Option ℕ) (cash_at_risk : ℚ)
    (period fast_window slow_window date : ℕ) (tk : String)
    (sentiment : TradeSignal) (pf pf' : Portfolio)
    (log log' : List LedgerEntry)
    (hprices : ∀ d t fld x, prices d t fld = some x → 0 < x)
    (hhist : ∀ t bs, hist t = some bs → ∀ b ∈ bs, b.low ≤ b.high)
    (hf2 : 2 * cash_at_risk ≤ 1) (hc : 0 ≤ pf.cash)
    (hall : ∀ e ∈ pf.positions, PosOK e.2)
    (h : try_enter prices hist dateIdx cash_at_risk period fast_window
      slow_window date tk sentiment pf log = Except.ok (pf', log')) :
    0 ≤ pf'.cash ∧ ∀ e ∈ pf'.positions, PosOK e.2 := by
  unfold try_enter at h
  split at h
  · simp only [Except.ok.injEq, Prod.mk.injEq] at h
    obtain ⟨rfl, rfl⟩ := h
    exact ⟨hc, hall⟩
  · rename_i bars hbars
    split at h
    · simp only [Except.ok.injEq, Prod.mk.injEq] at h
      obtain ⟨rfl, rfl⟩ := h
      exact ⟨hc, hall⟩
    · rename_i technical htech
      split at h
      · split at h
        · simp only [Except.ok.injEq, Prod.mk.injEq] at h
          obtain ⟨rfl, rfl⟩ := h
          exact ⟨hc, hall⟩
        · rename_i entry_price hopen
          split at h
          · simp only [Except.ok.injEq, Prod.mk.injEq] at h
            obtain ⟨rfl, rfl⟩ := h
            exact ⟨hc, hall⟩
          · rename_i atr hatr
            split at h
            · exact Except.noConfusion h
            · rename_i hpz
              injection h with h2
              have hp : 0 < entry_price :=
                hprices date tk PriceField.Open entry_price hopen
              have ha : 0 ≤ atr := by
                rcases Option.bind_eq_some.mp hatr with ⟨i, -, hget⟩
                exact atrList_nonneg bars period (hhist tk bars hbars) atr
                  (List.get?_mem hget)
              have h2' : (open_position cash_at_risk date tk sentiment
                  entry_price atr pf log).1 = pf' := congrArg Prod.fst h2
              rw [← h2']
              exact open_position_inv cash_at_risk date tk sentiment
                entry_price atr pf log hp ha hc hf2 hall
      · simp only [Except.ok.injEq, Prod.mk.injEq] at h
        obtain ⟨rfl, rfl⟩ := h
        exact ⟨hc, hall⟩

theorem entryStep_inv (prices : Prices) (hist : String → Option (List Bar))
    (dateIdx : String → ℕ → Option ℕ)
    (confidence_threshold cash_at_risk : ℚ)
    (period fast_window slow_window date : ℕ) (news : List NewsRow)
    (exited : Portfolio × List LedgerEntry) (pf' : Portfolio)
    (log' : List LedgerEntry)
    (hprices : ∀ d t fld x, prices d t fld = some x → 0 < x)
    (hhist : ∀ t bs, hist t = some bs → ∀ b ∈ bs, b.low ≤ b.high)
    (hf2 : 2 * cash_at_risk ≤ 1) (hc : 0 ≤ exited.1.cash)
    (hall : ∀ e ∈ exited.1.positions, PosOK e.2)
    (h : entryStep prices hist dateIdx confidence_threshold cash_at_risk
      period fast_window slow_window date news exited =
        Except.ok (pf', log')) :
    0 ≤ pf'.cash ∧ ∀ e ∈ pf'.positions, PosOK e.2 := by
  unfold entryStep at h
  split at h
  · simp only [Except.ok.injEq] at h
    have h1 : exited.1 = pf' := by rw [h]
    rw [← h1]
    exact ⟨hc, hall⟩
  · split at h
    · exact Except.noConfusion h
    · split at h
      · simp only [Except.ok.injEq] at h
        have h1 : exited.1 = pf' := by rw [h]
        rw [← h1]
        exact ⟨hc, hall⟩
      · exact try_enter_inv prices hist dateIdx cash_at_risk period
          fast_window slow_window date _ _ exited.1 pf' exited.2 log'
          hprices hhist hf2 hc hall h

theorem dayStep_inv (prices : Prices) (hist : String → Option (List Bar))
    (dateIdx : String → ℕ → Option ℕ)
    (confidence_threshold cash_at_risk : ℚ)
    (period fast_window slow_window date : ℕ) (news : List NewsRow)
    (st st' : BTState)
    (hprices : ∀ d t fld x, prices d t fld = some x → 0 < x)
    (hhist : ∀ t bs, hist t = some bs → ∀ b ∈ bs, b.low ≤ b.high)
    (hf2 : 2 * cash_at_risk ≤ 1) (hc : 0 ≤ st.pf.cash)
    (hall : ∀ e ∈ st.pf.positions, PosOK e.2)
    (h : dayStep prices hist dateIdx confidence_threshold cash_at_risk
      period fast_window slow_window date news st = Except.ok st') :
    0 ≤ st'.pf.cash ∧ ∀ e ∈ st'.pf.positions, PosOK e.2 := by
  have hex := process_exits_inv prices date st.pf st.log hprices hc hall
  unfold dayStep at h
  split at h
  · exact Except.noConfusion h
  · rename_i pf2 log2 heq
    simp only [Except.ok.injEq] at h
    rw [← h]
    exact entryStep_inv prices hist dateIdx confidence_threshold
      cash_at_risk period fast_window slow_window date news
      (process_exits prices date st.pf st.log) pf2 log2 hprices hhist hf2
      hex.1 hex.2 heq

theorem runDays_inv (prices : Prices) (hist : String → Option (List Bar))
    (dateIdx : String → ℕ → Option ℕ)
    (confidence_threshold cash_at_risk : ℚ)
    (period fast_window slow_window : ℕ)
    (hprices : ∀ d t fld x, prices d t fld = some x → 0 < x)
    (hhist : ∀ t bs, hist t = some bs → ∀ b ∈ bs, b.low ≤ b.high)
    (hf2 : 2 * cash_at_risk ≤ 1) :
    ∀ (days : List (ℕ × List NewsRow)) (st st' : BTState),
      0 ≤ st.pf.cash → (∀ e ∈ st.pf.positions, PosOK e.2) →
      runDays prices hist dateIdx confidence_threshold cash_at_risk period
        fast_window slow_window days st = Except.ok st' →
      0 ≤ st'.pf.cash ∧ ∀ e ∈ st'.pf.positions, PosOK e.2
  | [], st, st', h1, h2, h => by
      unfold runDays at h
      simp only [Except.ok.injEq] at h
      rw [← h]
      exact ⟨h1, h2⟩
  | (d, news) :: rest, st, st', h1, h2, h => by
      unfold runDays at h
      split at h
      · exact Except.noConfusion h
      · rename_i st1 hday
        have hst1 := dayStep_inv prices hist dateIdx confidence_threshold
          cash_at_risk period fast_window slow_window d news st st1
          hprices hhist hf2 h1 h2 hday
        exact runDays_inv prices hist dateIdx confidence_threshold
          cash_at_risk period fast_window slow_window hprices hhist hf2
          rest st1 st' hst1.1 hst1.2 h

/-- C1: with strictly positive quoted prices and well-formed bars
(low ≤ high), every state an ok backtest run reaches from the initial
100000 cash — in particular after each day's exit, entry and valuation
steps — has cash ≥ 0: under the 0.05 cash-at-risk fraction and the
quantity = round(fraction * cash / entry_price) rule, no entry ever
costs more than the available cash. -/
theorem C1_cash_nonneg (prices : Prices) (hist : String → Option (List Bar))
    (dateIdx : String → ℕ → Option ℕ) (confidence_threshold : ℚ)
    (period fast_window slow_window : ℕ)
    (days : List (ℕ × List NewsRow)) (st' : BTState)
    (hprices : ∀ d t fld x, prices d t fld = some x → 0 < x)
    (hhist : ∀ t bs, hist t = some bs → ∀ b ∈ bs, b.low ≤ b.high)
    (hrun : runDays prices hist dateIdx confidence_threshold (1 / 20)
      period fast_window slow_window days initState = Except.ok st') :
    0 ≤ st'.pf.cash :=
  (runDays_inv prices hist dateIdx confidence_threshold (1 / 20) period
    fast_window slow_window hprices hhist (by norm_num) days initState st'
    (by norm_num [initState]) (fun e he => absurd he (List.not_mem_nil e))
    hrun).1

/-- C1 witness: a one-day run with no news from the initial state ends
with the initial cash and a single portfolio-value sample, and that cash
is nonnegative. -/
theorem C1_cash_nonneg_witness :
    0 ≤ (BTState.mk ⟨100000, []⟩ []
      [(0, 100000 + 0)] : BTState).pf.cash :=
  C1_cash_nonneg (fun _ _ _ => some 1) (fun _ => none) (fun _ _ => none)
    (9 / 10) 14 20 50 [(0, [])]
    (BTState.mk ⟨100000, []⟩ [] [(0, 100000 + 0)])
    (fun _ _ _ x h => by
      injection h with h'
      rw [← h']
      norm_num)
    (fun _ _ h => by cases h) rfl

end NewsBot
